import Mathlib

set_option maxRecDepth 40000

/-!
Verification of the OmniLens code-analysis tool (`omnilens/__main__.py`)
against its natural-language specification.

The Python source is shallowly embedded: strings are modelled as `List Char`,
Python `re` calls are translated into executable matching functions that are
faithful to the concrete regular expressions appearing in the source, and
floating-point arithmetic is modelled exactly over `ℚ` (the claims under
scrutiny concern formula structure, and the numeric gaps exhibited are far
larger than double rounding error).  Characters are treated at ASCII level:
Python's `\w` is modelled as alphanumeric-or-underscore and `\s`/`str.strip`
as the usual whitespace set, which is exact for all inputs considered here.
-/

/-- Strings are modelled as lists of characters so that the Python string
operations (`split`, `strip`, slicing) become inspectable Lean functions. -/
abbrev Chars := List Char

/-- Convert a Lean string literal to the `List Char` model. -/
def sl (s : String) : Chars := s.data

/-- Apostrophe character (Python `'`), needed for docstring markers. -/
def squote : Char := Char.ofNat 39

/-- Python whitespace (`str.strip` / regex `\s`), ASCII model. -/
def isSpaceChar (c : Char) : Bool :=
  c = ' ' || c = '\t' || c = '\n' || c = '\x0d' || c = '\x0b' || c = '\x0c'

/-- Python regex `\w` (ASCII model): alphanumeric or underscore. -/
def isWordChar (c : Char) : Bool :=
  c.isAlphanum || c = '_'

/-- `str.lstrip()` — drop leading whitespace. -/
def lstripL (xs : Chars) : Chars := xs.dropWhile isSpaceChar

/-- `str.rstrip()` — drop trailing whitespace. -/
def rstripL (xs : Chars) : Chars := (xs.reverse.dropWhile isSpaceChar).reverse

/-- `str.strip()`. -/
def trimL (xs : Chars) : Chars := rstripL (lstripL xs)

/-- Leading-whitespace count: `len(line) - len(line.lstrip())`. -/
def indentOf (xs : Chars) : Nat := (xs.takeWhile isSpaceChar).length

/-- `str.startswith(pre)`. -/
def startsWithL (pre xs : Chars) : Bool := pre.isPrefixOf xs

/-- `str.endswith(suf)`. -/
def endsWithL (suf xs : Chars) : Bool := suf.reverse.isPrefixOf xs.reverse

/-- Break `xs` at the first occurrence of the (nonempty) substring `sep`:
returns the part before it and the part after it, or `none` if absent. -/
def breakAtSub (sep : Chars) : Chars → Option (Chars × Chars)
  | [] => if sep.isPrefixOf ([] : Chars) then some ([], []) else none
  | y :: ys =>
    if sep.isPrefixOf (y :: ys) then some ([], (y :: ys).drop sep.length)
    else (breakAtSub sep ys).map (fun p => (y :: p.1, p.2))

/-- `sub in s` (substring containment). -/
def containsSub (sub xs : Chars) : Bool := (breakAtSub sub xs).isSome

theorem breakAtSub_length_lt (sep xs a b : Chars) (hsep : sep ≠ [])
    (h : breakAtSub sep xs = some (a, b)) : b.length < xs.length := by
  induction xs generalizing a b with
  | nil =>
    simp only [breakAtSub] at h
    split at h
    · next hp =>
      exfalso
      cases sep with
      | nil => exact hsep rfl
      | cons c cs => simp [List.isPrefixOf] at hp
    · exact absurd h (by simp)
  | cons y ys ih =>
    simp only [breakAtSub] at h
    split at h
    · simp only [Option.some.injEq, Prod.mk.injEq] at h
      have hb : b = (y :: ys).drop sep.length := h.2.symm
      have hpos : 0 < sep.length := List.length_pos.mpr hsep
      subst hb
      simp only [List.length_drop, List.length_cons]
      omega
    · cases hrec : breakAtSub sep ys with
      | none => simp [hrec] at h
      | some p =>
        simp only [hrec, Option.map_some', Option.some.injEq, Prod.mk.injEq] at h
        have hlt := ih p.1 p.2 (by rw [hrec])
        have hb : b = p.2 := h.2.symm
        subst hb
        simp only [List.length_cons]
        omega

/-- Worker for `splitSub`, structurally recursive on a fuel bound so that
it evaluates by kernel reduction.  By `breakAtSub_length_lt` every step
strictly shortens the remainder, so fuel `xs.length + 1` is never
exhausted and the fuel-free recursion is computed faithfully. -/
def splitSubAux (sep : Chars) : Nat → Chars → List Chars
  | 0, xs => [xs]
  | fuel + 1, xs =>
    match breakAtSub sep xs with
    | none => [xs]
    | some (a, rest) => a :: splitSubAux sep fuel rest

/-- Python `s.split(sep)` for a nonempty substring separator. -/
def splitSub (sep : Chars) (xs : Chars) : List Chars :=
  if sep = [] then [xs] else splitSubAux sep (xs.length + 1) xs

/-- Python `s.split(c)` for a single-character separator. -/
def splitChar (sep : Char) : Chars → List Chars
  | [] => [[]]
  | x :: xs =>
    let r := splitChar sep xs
    if x = sep then [] :: r
    else
      match r with
      | [] => [[x]]
      | y :: ys => (x :: y) :: ys

/-- `sep.join(parts)` for a single-character separator. -/
def joinChar (sep : Char) : List Chars → Chars
  | [] => []
  | [x] => x
  | x :: y :: ys => x ++ sep :: joinChar sep (y :: ys)

/-- Case-fold (Python `re.IGNORECASE` comparison, ASCII model). -/
def lowerCh (c : Char) : Char := c.toLower

/-- Python `max(a, b)` on rationals, written with an explicit comparison so
that it evaluates by kernel reduction (it equals `max`, see `qmax_eq_max`). -/
def qmax (a b : ℚ) : ℚ := if a ≤ b then b else a

/-- Python `min(a, b)` on rationals. -/
def qmin (a b : ℚ) : ℚ := if a ≤ b then a else b

/-- Python `max(a, b)` on integers. -/
def imax (a b : Int) : Int := if a ≤ b then b else a

theorem qmax_eq_max (a b : ℚ) : qmax a b = max a b := by
  rw [qmax, max_def]

theorem qmin_eq_min (a b : ℚ) : qmin a b = min a b := by
  rw [qmin, min_def]

/-- Python `int(s)` for the strings the numstat parser feeds it: optional
surrounding whitespace, an optional single sign, then a nonempty digit
string in which single underscores may separate digits. Returns `none`
exactly when `int` raises `ValueError`. -/
def pyIntDigits : Nat → Chars → Option Nat
  | acc, [] => some acc
  | acc, '_' :: c :: rest =>
    if c.isDigit then pyIntDigits (acc * 10 + (c.toNat - 48)) rest else none
  | _, ['_'] => none
  | acc, c :: rest =>
    if c.isDigit then pyIntDigits (acc * 10 + (c.toNat - 48)) rest else none

def pyInt (s : Chars) : Option Int :=
  let t := trimL s
  match t with
  | '+' :: rest =>
    match rest with
    | c :: rest2 =>
      if c.isDigit then (pyIntDigits (c.toNat - 48) rest2).map Int.ofNat else none
    | [] => none
  | '-' :: rest =>
    match rest with
    | c :: rest2 =>
      if c.isDigit then (pyIntDigits (c.toNat - 48) rest2).map (fun n => -(n : Int)) else none
    | [] => none
  | c :: rest =>
    if c.isDigit then (pyIntDigits (c.toNat - 48) rest).map Int.ofNat else none
  | [] => none

/-! ## Conventional-commit grammar (`CONVENTIONAL_RE`) and category map -/

/-- Result of `CONVENTIONAL_RE.match(subject)`:
`^(\w+)(?:\(([^)]+)\))?(!)?:\s*(.*)$`. -/
structure ConvMatch where
  ctype : Chars
  scope : Option Chars
  bang : Bool
  desc : Chars
deriving DecidableEq

/-- Backtracking search `f n, f (n-1), ..., f 0`, first success (models a
greedy quantifier giving characters back one at a time). -/
def tryDown (f : Nat → Option α) : Nat → Option α
  | 0 => f 0
  | n + 1 =>
    match f (n + 1) with
    | some r => some r
    | none => tryDown f n

/-- Match `\s*(.*)$` against the whole of `r4` (the text after the colon of
the conventional-commit pattern); `$` matches at the end or just before a
final newline; returns the `(.*)` capture. -/
def matchTailMsg (r4 : Chars) : Option Chars :=
  tryDown (fun a =>
    let r := r4.drop a
    let m := r.takeWhile (fun c => c ≠ '\n')
    let e := r.drop m.length
    if e = [] ∨ e = ['\n'] then some m else none)
    (r4.takeWhile isSpaceChar).length

/-- `CONVENTIONAL_RE.match(s)`.  The leading `\w+` is matched greedily; no
backtracking on it can ever succeed because a shorter match leaves a word
character where `(`, `!` or `:` is required, so the greedy run is exact.
A failed optional scope group falls through to requiring `:`/`!` at the
`(` character, which fails — also exactly the regex behaviour. -/
def matchConventional (s : Chars) : Option ConvMatch :=
  let t := s.takeWhile isWordChar
  if t = [] then none
  else
    let r1 := s.drop t.length
    let sr :=
      match r1 with
      | '(' :: rest =>
        let inner := rest.takeWhile (fun c => c ≠ ')')
        if inner = [] then (none, r1)
        else
          match rest.drop inner.length with
          | ')' :: rtail => (some inner, rtail)
          | _ => (none, r1)
      | _ => ((none : Option Chars), r1)
    let br :=
      match sr.2 with
      | '!' :: rtail => (true, rtail)
      | _ => (false, sr.2)
    match br.2 with
    | ':' :: r4 => (matchTailMsg r4).map (fun msg => ⟨t, sr.1, br.1, msg⟩)
    | _ => none

/-- `CAT_MAP` from the source. -/
def CAT_MAP : List (Chars × Chars) :=
  [(sl ("feat"), sl ("features")), (sl ("fix"), sl ("bugfixes")),
   (sl ("perf"), sl ("refactoring")), (sl ("refactor"), sl ("refactoring")),
   (sl ("docs"), sl ("docs")), (sl ("test"), sl ("test")),
   (sl ("chore"), sl ("chore")), (sl ("ci"), sl ("ci")),
   (sl ("style"), sl ("style")), (sl ("build"), sl ("build")),
   (sl ("revert"), sl ("reverts")), (sl ("merge"), sl ("merges"))]

/-- `CAT_MAP.get(ctype, 'other')`. -/
def catMapGet (t : Chars) : Chars :=
  match CAT_MAP.find? (fun p => p.1 == t) with
  | some p => p.2
  | none => sl ("other")

/-- Specification-side predicate, from the spec's words: the full commit
body contains a `BREAKING CHANGE:` trailer, case-insensitively.  Used to
compare the spec's claimed breaking-flag rule with the code's. -/
def hasBreakingTrailerSpec (body : Chars) : Bool :=
  containsSub (sl ("breaking change:")) (body.map lowerCh)

/-! ## `datetime.fromisoformat` (library model, CPython ≤ 3.10 grammar) -/

def digitVal (c : Char) : Nat := c.toNat - 48

def num2 (a b : Char) : Nat := digitVal a * 10 + digitVal b

def daysInMonth (y m : Nat) : Nat :=
  if m = 2 then (if y % 4 = 0 ∧ (y % 100 ≠ 0 ∨ y % 400 = 0) then 29 else 28)
  else if m = 4 ∨ m = 6 ∨ m = 9 ∨ m = 11 then 30 else 31

/-- `YYYY-MM-DD` with calendar validity (as enforced by `datetime.date`). -/
def validDate10 (xs : Chars) : Bool :=
  match xs with
  | [y1, y2, y3, y4, s1, m1, m2, s2, d1, d2] =>
    y1.isDigit && y2.isDigit && y3.isDigit && y4.isDigit &&
    s1 = '-' && m1.isDigit && m2.isDigit && s2 = '-' && d1.isDigit && d2.isDigit &&
    (let y := num2 y1 y2 * 100 + num2 y3 y4
     let mo := num2 m1 m2
     let da := num2 d1 d2
     decide (1 ≤ y) && decide (1 ≤ mo) && decide (mo ≤ 12) &&
     decide (1 ≤ da) && decide (da ≤ daysInMonth y mo))
  | _ => false

/-- `HH`, `HH:MM`, `HH:MM:SS`, `HH:MM:SS.fff`, `HH:MM:SS.ffffff` with range
checks (models `_parse_hh_mm_ss_ff` plus the `time` constructor checks). -/
def validHMSF (xs : Chars) : Bool :=
  match xs with
  | [h1, h2] => h1.isDigit && h2.isDigit && decide (num2 h1 h2 < 24)
  | [h1, h2, c1, m1, m2] =>
    h1.isDigit && h2.isDigit && c1 = ':' && m1.isDigit && m2.isDigit &&
    decide (num2 h1 h2 < 24) && decide (num2 m1 m2 < 60)
  | h1 :: h2 :: c1 :: m1 :: m2 :: c2 :: s1 :: s2 :: rest =>
    h1.isDigit && h2.isDigit && c1 = ':' && m1.isDigit && m2.isDigit &&
    c2 = ':' && s1.isDigit && s2.isDigit &&
    decide (num2 h1 h2 < 24) && decide (num2 m1 m2 < 60) && decide (num2 s1 s2 < 60) &&
    (match rest with
     | [] => true
     | '.' :: frac => (frac.length = 3 || frac.length = 6) && frac.all Char.isDigit
     | _ => false)
  | _ => false

/-- UTC-offset part after the sign: `HH:MM`, `HH:MM:SS`, `HH:MM:SS.ffffff`. -/
def validTzTail (z : Chars) : Bool :=
  (z.length = 5 || z.length = 8 || z.length = 15) && validHMSF z

/-- Time-of-day possibly followed by a signed offset.  CPython locates the
offset at the first `-` if any, else the first `+`. -/
def validTime (t : Chars) : Bool :=
  match t.findIdx? (fun c => c = '-') with
  | some i => validHMSF (t.take i) && validTzTail (t.drop (i + 1))
  | none =>
    match t.findIdx? (fun c => c = '+') with
    | some i => validHMSF (t.take i) && validTzTail (t.drop (i + 1))
    | none => validHMSF t

/-- Does `datetime.fromisoformat(s)` succeed?  Date part is the first ten
characters; character eleven (any separator) is followed by the time part. -/
def isIsoDate (s : Chars) : Bool :=
  validDate10 (s.take 10) &&
  (s.length = 10 || (decide (12 ≤ s.length) && validTime (s.drop 11)))

/-! ## Commit records and `GitIntelligence.get_history` parsing -/

/-- `CommitInfo` dataclass.  The commit timestamp is kept as the validated
ISO string (no claim inspects the decoded date value). -/
structure CommitInfo where
  hash : Chars
  author_name : Chars
  author_email : Chars
  date : Chars
  message : Chars
  full_message : Chars
  category : Chars
  scope : Option Chars
  is_breaking : Bool
  breaking_description : Option Chars
  insertions : Int
  deletions : Int
  files_changed : Nat
deriving DecidableEq

def COMMIT_DELIMITER : Chars := sl ("==COMMIT_BOUNDARY==")

def FIELD_DELIMITER : Chars := sl ("==FIELD_BOUNDARY==")

/-- One iteration of the numstat loop in `get_history` (lines 685–695):
`files` is incremented before the `try:` block, and a `ValueError` raised
while adding `parts[0]` skips the `parts[1]` addition as well. -/
def numstatLine (acc : Int × Int × Nat) (line : Chars) : Int × Int × Nat :=
  if line.contains '\t' then
    let parts := splitChar '\t' line
    if parts.length ≥ 3 then
      let files := acc.2.2 + 1
      let p0 := parts.getD 0 []
      let p1 := parts.getD 1 []
      if p0 = ['-'] then
        if p1 = ['-'] then (acc.1, acc.2.1, files)
        else
          match pyInt p1 with
          | some v => (acc.1, acc.2.1 + v, files)
          | none => (acc.1, acc.2.1, files)
      else
        match pyInt p0 with
        | none => (acc.1, acc.2.1, files)
        | some v =>
          if p1 = ['-'] then (acc.1 + v, acc.2.1, files)
          else
            match pyInt p1 with
            | some w => (acc.1 + v, acc.2.1 + w, files)
            | none => (acc.1 + v, acc.2.1, files)
    else acc
  else acc

/-- Accumulate the numstat lines of one commit chunk into
`(insertions, deletions, files_changed)`. -/
def aggregateNumstat (statLines : List Chars) : Int × Int × Nat :=
  statLines.foldl numstatLine (0, 0, 0)

/-- Category/scope/breaking/message from a subject (lines 697–704). -/
structure Classified where
  category : Chars
  scope : Option Chars
  is_breaking : Bool
  msg : Chars
deriving DecidableEq

def classifySubject (subject : Chars) : Classified :=
  match matchConventional subject with
  | some m => ⟨catMapGet m.ctype, m.scope, m.bang, m.desc⟩
  | none => ⟨sl ("other"), none, false, subject⟩

/-- Parse one chunk of the delimited git log (the body of the `for chunk`
loop in `get_history`); `none` corresponds to every `continue`. -/
def parseChunk (chunk : Chars) : Option CommitInfo :=
  let t := trimL chunk
  if t = [] then none
  else
    let lines := splitChar '\n' t
    if lines.length < 1 ∨ trimL (lines.headD []) = [] then none
    else
      let meta := splitSub FIELD_DELIMITER (lines.headD [])
      if meta.length < 4 then none
      else
        let stats := aggregateNumstat lines.tail
        let subject := meta.getD 3 []
        let cls := classifySubject subject
        if isIsoDate (meta.getD 2 []) then
          some
            { hash := meta.getD 0 [], author_name := meta.getD 1 [],
              author_email := [], date := meta.getD 2 [], message := cls.msg,
              full_message := subject, category := cls.category,
              scope := cls.scope, is_breaking := cls.is_breaking,
              breaking_description := none, insertions := stats.1,
              deletions := stats.2.1, files_changed := stats.2.2 }
        else none

/-- `get_history` applied to the raw log text produced by the git call:
split on the commit boundary and keep the successfully parsed chunks. -/
def parseGitLog (raw : Chars) : List CommitInfo :=
  (splitSub COMMIT_DELIMITER raw).filterMap parseChunk

/-! ## `TechDebtCalculator` -/

/-- The two keys of the `code_metrics` dict that `calculate_metrics` reads
(the dict is produced by `calculate_code_metrics`, which always sets both). -/
structure CodeMetricsIn where
  complexity : ℚ
  maintainability_index : ℚ
deriving DecidableEq

structure TechDebtMetrics where
  total_commits : Nat
  debt_commits : Nat
  feature_commits : Nat
  maintenance_commits : Nat
  debt_percentage : ℚ
  feature_percentage : ℚ
  maintenance_percentage : ℚ
  health_score : ℚ
  complexity_score : ℚ
  maintainability_index : ℚ
deriving DecidableEq

def DEBT_CATEGORIES : List Chars :=
  [sl ("chore"), sl ("refactor"), sl ("style"), sl ("ci")]

def FEATURE_CATEGORIES : List Chars :=
  [sl ("feat"), sl ("bugfix"), sl ("features"), sl ("bugfixes")]

def MAINTENANCE_CATEGORIES : List Chars :=
  [sl ("docs"), sl ("test"), sl ("docs"), sl ("test")]

/-- `TechDebtCalculator.calculate_metrics`. -/
def calculate_metrics (commits : List CommitInfo)
    (code_metrics : Option CodeMetricsIn) : TechDebtMetrics :=
  let total := commits.length
  if total = 0 then ⟨0, 0, 0, 0, 0, 0, 0, 0, 0, 0⟩
  else
    let debt := (commits.filter (fun c => DEBT_CATEGORIES.contains c.category)).length
    let features := (commits.filter (fun c => FEATURE_CATEGORIES.contains c.category)).length
    let maintenance := (commits.filter (fun c => MAINTENANCE_CATEGORIES.contains c.category)).length
    let debt_pct : ℚ := (debt : ℚ) / (total : ℚ) * 100
    let feature_pct : ℚ := (features : ℚ) / (total : ℚ) * 100
    let maintenance_pct : ℚ := (maintenance : ℚ) / (total : ℚ) * 100
    let health_score : ℚ :=
      if debt_pct > 0 then qmin 100 (feature_pct / debt_pct * 50 + 50) else 100
    let avg_complexity : ℚ := (code_metrics.map (fun m => m.complexity)).getD 0
    let complexity_score : ℚ := qmax 0 (100 - avg_complexity)
    let maintainability : ℚ := (code_metrics.map (fun m => m.maintainability_index)).getD 75
    ⟨total, debt, features, maintenance, debt_pct, feature_pct, maintenance_pct,
      health_score, complexity_score, maintainability⟩

/-! ## `ComplexityAnalyzer` -/

/-- Does `xs` begin with the (lowercase) keyword `kw` case-insensitively,
with a word boundary after it?  (All the keywords consist of word
characters, so the trailing `\b` holds iff the next character, if any, is
a non-word character.) -/
def matchesKwAt (kw xs : Chars) : Bool :=
  (xs.take kw.length).map lowerCh = kw &&
    (match xs.drop kw.length with
     | [] => true
     | d :: _ => !isWordChar d)

/-- Number of matches of `\bkw\b` (`re.IGNORECASE`).  None of the keywords
in `COMPLEXITY_PATTERNS` can overlap itself (word boundaries would have to
fall between two word characters), so counting match positions equals
counting the non-overlapping matches `re.findall` returns. -/
def countKwAux (kw : Chars) : Option Char → Chars → Nat
  | _, [] => 0
  | prev, c :: rest =>
    let bOK := match prev with | none => true | some p => !isWordChar p
    (if bOK && matchesKwAt kw (c :: rest) then 1 else 0) + countKwAux kw (some c) rest

def countKw (kw s : Chars) : Nat := countKwAux kw none s

/-- Number of matches of `\b&&` / `\b\|\|`: the operator character `a` is a
non-word character, so the boundary holds iff the previous character is a
word character; two matches can never overlap, so position counting equals
`re.findall` counting. -/
def countPairAux (a : Char) : Option Char → Chars → Nat
  | _, [] => 0
  | prev, c :: rest =>
    let bOK := match prev with | none => false | some p => isWordChar p
    (if bOK && c = a && rest.head? = some a then 1 else 0) + countPairAux a (some c) rest

def countAmpAmp (s : Chars) : Nat := countPairAux '&' none s

def countPipePipe (s : Chars) : Nat := countPairAux '|' none s

def wsRunLen (xs : Chars) : Nat := (xs.takeWhile isSpaceChar).length

def dotRunLen (xs : Chars) : Nat := (xs.takeWhile (fun c => c ≠ '\n')).length

/-- Length consumed by `\s*.*\s*:` at the start of `rest`, with the greedy
backtracking order of the regex engine (`\s*` maximal, then `.*` maximal,
then the final `\s*` maximal, shrinking innermost-first until a `:` is
found); `none` if no decomposition reaches a colon. -/
def ternaryTailLen (rest : Chars) : Option Nat :=
  tryDown (fun a =>
    let r1 := rest.drop a
    tryDown (fun b =>
      let r2 := r1.drop b
      tryDown (fun c =>
        match r2.drop c with
        | ':' :: _ => some (a + b + c + 1)
        | _ => none) (wsRunLen r2)) (dotRunLen r1)) (wsRunLen rest)

/-- `re.findall` scan for the ternary pattern `\b\?\s*.*\s*:`: `?` is a
non-word character, so its leading boundary requires a word character just
before; after a match the scan resumes past the matched colon.  The fuel
argument (initialised to the string length) only bounds the recursion and
is never exhausted, since every step consumes at least one character. -/
def countTernaryAux : Nat → Option Char → Chars → Nat
  | 0, _, _ => 0
  | _ + 1, _, [] => 0
  | fuel + 1, prev, c :: rest =>
    let bOK := match prev with | none => false | some p => isWordChar p
    if bOK && c = '?' then
      match ternaryTailLen rest with
      | some tl => 1 + countTernaryAux fuel (some ':') (rest.drop tl)
      | none => countTernaryAux fuel (some c) rest
    else countTernaryAux fuel (some c) rest

def countTernary (s : Chars) : Nat := countTernaryAux s.length none s

/-- `ComplexityAnalyzer.COMPLEXITY_PATTERNS` — each regex paired with its
weight, translated to the counting function for that regex. -/
def COMPLEXITY_PATTERNS : List ((Chars → Nat) × Nat) :=
  [(countKw (sl ("if")), 1), (countKw (sl ("elseif")), 1), (countKw (sl ("else")), 1),
   (countKw (sl ("for")), 1), (countKw (sl ("while")), 1), (countKw (sl ("do")), 1),
   (countKw (sl ("switch")), 1), (countKw (sl ("case")), 1), (countKw (sl ("catch")), 1),
   (countTernary, 1), (countAmpAmp, 1), (countPipePipe, 1),
   (countKw (sl ("and")), 1), (countKw (sl ("or")), 1)]

/-- `ComplexityAnalyzer.calculate_cyclomatic_complexity`. -/
def calculate_cyclomatic_complexity (code : Chars) : Nat :=
  COMPLEXITY_PATTERNS.foldl (fun acc p => acc + p.1 code * p.2) 1

/-- `re.sub(r'#.*$', '', code, flags=re.MULTILINE)`: on every line, delete
from the first `#` to the end of the line. -/
def stripHashComments (code : Chars) : Chars :=
  joinChar '\n' ((splitChar '\n' code).map (fun l => l.takeWhile (fun c => c ≠ '#')))

def removeFromFirstSub (sub xs : Chars) : Chars :=
  match breakAtSub sub xs with
  | some p => p.1
  | none => xs

/-- `re.sub(r'//.*$', '', code)` — without `re.MULTILINE`, `$` only matches
at the end of the string or just before a terminal newline, so only the
final line can be affected. -/
def stripSlashSlashLast (code : Chars) : Chars :=
  let hasNl := code.getLast? = some '\n'
  let core := if hasNl then code.dropLast else code
  let ls := splitChar '\n' core
  joinChar '\n' (ls.dropLast ++ [removeFromFirstSub (sl ("//")) (ls.getLastD [])]) ++
    (if hasNl then ['\n'] else [])

/-- `re.sub(opener .*? closer, '', code, flags=re.DOTALL)`: repeatedly
delete from an opener to the nearest closer after it.  If some opener has
no closer after it, no later opener can have one either, so the scan stops.
Fuel starts at the string length and strictly bounds the iteration count. -/
def stripDelimited (opener closer : Chars) : Nat → Chars → Chars
  | 0, xs => xs
  | fuel + 1, xs =>
    match breakAtSub opener xs with
    | none => xs
    | some p =>
      match breakAtSub closer p.2 with
      | none => xs
      | some q => p.1 ++ stripDelimited opener closer fuel q.2

def stripBlockComments (code : Chars) : Chars :=
  stripDelimited (sl ("/*")) (sl ("*/")) code.length code

def stripHtmlComments (code : Chars) : Chars :=
  stripDelimited (sl ("<!--")) (sl ("-->")) code.length code

/-- One line of the `comment_lines` list comprehension. -/
def isCommentLine (l : Chars) : Bool :=
  let st := trimL l
  startsWithL (sl ("#")) st || startsWithL (sl ("//")) st || startsWithL (sl ("*")) st ||
    (startsWithL (sl ("/*")) st && endsWithL (sl ("*/")) st)

/-- `ComplexityAnalyzer.calculate_maintainability_index`.  The Python float
arithmetic is modelled exactly over `ℚ`. -/
def calculate_maintainability_index (loc : Nat) (complexity : Nat) (comments : Nat) : ℚ :=
  if loc = 0 then 100
  else
    let sloc : Int := (loc : Int) - (comments : Int)
    let mi : ℚ := qmax 0 (171 - 5.2 * (complexity : ℚ) - 0.23 * (complexity : ℚ) -
      16.2 * ((imax 1 sloc : Int) : ℚ) / 100)
    qmin 100 (mi * 100 / 171)

/-- The entries of the dict returned by `calculate_code_metrics` that the
claims read; the `functions`, `classes` and `complexity_per_function` keys
are computed from independent regex counts and never feed the fields below,
so they are not modelled. -/
structure FileMetrics where
  loc : Nat
  sloc : Nat
  comment_lines : Nat
  complexity : Nat
  maintainability_index : ℚ
deriving DecidableEq

/-- `ComplexityAnalyzer.calculate_code_metrics` — `lines` are the file's
lines as read by `readlines()`, i.e. each still carrying its newline. -/
def calculate_code_metrics (lines : List Chars) : FileMetrics :=
  let code := lines.flatten
  let stripped :=
    stripHtmlComments (stripBlockComments (stripSlashSlashLast (stripHashComments code)))
  let total_lines := lines.length
  let comment_lines := (lines.filter isCommentLine).length
  let code_lines := total_lines - comment_lines
  let complexity := calculate_cyclomatic_complexity stripped
  let maintainability := calculate_maintainability_index code_lines complexity comment_lines
  ⟨total_lines, code_lines, comment_lines, complexity, maintainability⟩

/-! ## `CodebaseAnalyzer._parse_code_file` — Python language family -/

/-- `ClassInfo` dataclass (complexity stays at its default here, as in
`_parse_code_file`). -/
structure ClassInfo where
  name : Chars
  file_path : Chars
  line_number : Nat
  class_type : Chars
  language : Chars
  is_test : Bool
  docstring : Option Chars
  methods : List Chars
  bases : List Chars
  code_snippet : Option Chars
  complexity : Nat
deriving DecidableEq

/-- `re.match(r'^class\s+(\w+)(?:\(([^)]+)\))?\s*:', stripped)` — returns
the class name and the optional base-list capture.  Greedy `\s+`/`\w+` need
no backtracking (a shorter run leaves a character the next piece rejects),
and a failed optional scope group falls through to requiring `:` at the
`(`, which fails, exactly as the regex engine behaves. -/
def matchPyClass (st : Chars) : Option (Chars × Option Chars) :=
  match st with
  | 'c' :: 'l' :: 'a' :: 's' :: 's' :: rest =>
    let ws := rest.takeWhile isSpaceChar
    if ws = [] then none
    else
      let r1 := rest.drop ws.length
      let name := r1.takeWhile isWordChar
      if name = [] then none
      else
        let r2 := r1.drop name.length
        let pr :=
          match r2 with
          | '(' :: rest2 =>
            let inner := rest2.takeWhile (fun c => c ≠ ')')
            if inner = [] then (none, r2)
            else
              match rest2.drop inner.length with
              | ')' :: rtail => (some inner, rtail)
              | _ => (none, r2)
          | _ => ((none : Option Chars), r2)
        match pr.2.dropWhile isSpaceChar with
        | ':' :: _ => some (name, pr.1)
        | _ => none
  | _ => none

/-- `re.match(r'^def\s+(\w+)\s*\(', stripped)`. -/
def matchPyDef (st : Chars) : Option Chars :=
  match st with
  | 'd' :: 'e' :: 'f' :: rest =>
    let ws := rest.takeWhile isSpaceChar
    if ws = [] then none
    else
      let r1 := rest.drop ws.length
      let name := r1.takeWhile isWordChar
      if name = [] then none
      else
        match (r1.drop name.length).dropWhile isSpaceChar with
        | '(' :: _ => some name
        | _ => none
  | _ => none

/-- `re.match(r'^    def\s+(\w+)', line)` — exactly four leading spaces on
the raw (unstripped) line. -/
def matchIndentDef (raw : Chars) : Option Chars :=
  match raw with
  | ' ' :: ' ' :: ' ' :: ' ' :: 'd' :: 'e' :: 'f' :: rest =>
    let ws := rest.takeWhile isSpaceChar
    if ws = [] then none
    else
      let name := (rest.drop ws.length).takeWhile isWordChar
      if name = [] then none else some name
  | _ => none

/-- The `is_method` scan in `_parse_code_file` (lines 973–981): some line
among the five following line `i` is non-blank, is not a `#` comment, has
positive absolute indentation and does not begin with `def`. -/
def isMethodCheck (lines : List Chars) (i : Nat) : Bool :=
  (List.range 5).any (fun k =>
    let j := i + k
    decide (j < lines.length) &&
      (let nl := lines.getD j []
       let st := trimL nl
       !decide (st = []) && !startsWithL (sl ("#")) st &&
         decide (0 < indentOf nl) && !startsWithL (sl ("def")) st))

/-- Body of the scan loop in `_get_python_methods`: blank lines are
skipped, a non-comment line back at (or left of) the base indentation
stops the scan, and `^    def` lines contribute a method name. -/
def gpmScan (base : Nat) : List Chars → List Chars
  | [] => []
  | l :: rest =>
    let st := trimL l
    if st = [] then gpmScan base rest
    else if indentOf l ≤ base ∧ ¬startsWithL (sl ("#")) st then []
    else
      match matchIndentDef l with
      | some m => m :: gpmScan base rest
      | none => gpmScan base rest

/-- `CodebaseAnalyzer._get_python_methods`. -/
def getPythonMethods (lines : List Chars) (start : Nat) : List Chars :=
  if start > lines.length then []
  else
    let base := indentOf (lines.getD (start - 1) [])
    gpmScan base ((lines.drop start).take 100)

/-- `CodebaseAnalyzer._get_docstring` (it inspects the declaration line
itself: `lines[start_line - 1]`). -/
def getDocstring (lines : List Chars) (start : Nat) : Option Chars :=
  if start > lines.length then none
  else
    let nextLine := trimL (lines.getD (start - 1) [])
    let dq : Chars := ['"', '"', '"']
    let sq : Chars := [squote, squote, squote]
    if startsWithL dq nextLine ∨ startsWithL sq nextLine then
      let endMarker := nextLine.drop 3
      if containsSub dq endMarker ∨ containsSub sq endMarker then
        let marker := if containsSub dq endMarker then dq else sq
        if endsWithL marker nextLine then
          some (trimL ((nextLine.drop 3).take ((nextLine.drop 3).length - 3)))
        else none
      else none
    else none

/-- Termination test of the snippet loop, applied to every collected line
after the first (the line is still collected before the loop breaks). -/
def snippetBreak (l : Chars) : Bool :=
  let st := trimL l
  ((st = []) ∨
      (¬startsWithL (sl ("#")) st ∧ ¬startsWithL (sl ("//")) st ∧
        ¬startsWithL (sl ("*")) st ∧ ¬startsWithL (sl ("    ")) l ∧
        ¬startsWithL (sl ("\t")) l)) ∧
    ¬startsWithL (sl ("@")) st

def snippetScan : List Chars → List Chars
  | [] => []
  | l :: rest => rstripL l :: (if snippetBreak l then [] else snippetScan rest)

/-- `CodebaseAnalyzer._get_code_snippet` with the default short format
(window of twenty lines); only called with `1 ≤ start ≤ lines.length`. -/
def getCodeSnippet (lines : List Chars) (start : Nat) : Option Chars :=
  if start > lines.length then none
  else
    match (lines.drop (start - 1)).take 20 with
    | [] => none
    | first :: rest => some (joinChar '\n' (rstripL first :: snippetScan rest))

/-- One iteration of the `language == 'python'` arm of the entity loop in
`_parse_code_file` (`i` is the 1-indexed line number); `none` corresponds
to appending nothing for this line.  The loop carries no state between
iterations, so the whole scan is a `filterMap` of this function. -/
def processLine (fp : Chars) (lines : List Chars) (i : Nat) : Option ClassInfo :=
  let line := lines.getD (i - 1) []
  let st := trimL line
  if st = [] ∨ startsWithL (sl ("#")) st ∨ startsWithL (sl ("//")) st ∨
      startsWithL (sl ("*")) st then none
  else
    match matchPyClass st with
    | some nm =>
      some
        { name := nm.1, file_path := fp, line_number := i,
          class_type := sl ("class"), language := sl ("python"), is_test := false,
          docstring := getDocstring lines i, methods := getPythonMethods lines i,
          bases :=
            match nm.2 with
            | some g => (splitChar ',' g).map trimL
            | none => [],
          code_snippet := getCodeSnippet lines i, complexity := 0 }
    | none =>
      match matchPyDef st with
      | some f =>
        if i ≤ lines.length ∧ ¬isMethodCheck lines i then
          some
            { name := f, file_path := fp, line_number := i,
              class_type := sl ("function"), language := sl ("python"), is_test := false,
              docstring := getDocstring lines i, methods := [], bases := [],
              code_snippet := getCodeSnippet lines i, complexity := 0 }
        else none
      | none => none

/-- `_parse_code_file(file_path, lines, 'python')`. -/
def parsePythonFile (fp : Chars) (lines : List Chars) : List ClassInfo :=
  (List.range lines.length).filterMap (fun k => processLine fp lines (k + 1))

/-! ## Specification-side definitions (refinement comparisons)

These follow the *spec's words* rather than the source, and exist only to
be compared against the source-derived definitions above. -/

/-- Non-overlapping substring count (plain occurrences, no boundary
requirement) — the spec's reading of the `&&`/`\|\|` patterns, under which
"every occurrence adds 1 regardless of what character precedes it". -/
def countSubAux (sub : Chars) : Nat → Chars → Nat
  | 0, _ => 0
  | _ + 1, [] => 0
  | fuel + 1, c :: rest =>
    if sub.isPrefixOf (c :: rest) then
      1 + countSubAux sub fuel ((c :: rest).drop sub.length)
    else countSubAux sub fuel rest

def countSubNaive (sub s : Chars) : Nat := countSubAux sub s.length s

/-- Cyclomatic complexity as the spec sentence describes it: 1 plus the
occurrence counts of the listed tokens, with `&&` and `||` counted at every
occurrence regardless of the preceding character (keyword and ternary
occurrences are word-boundary scans in both readings). -/
def specCyclomaticComplexity (code : Chars) : Nat :=
  1 + countKw (sl ("if")) code + countKw (sl ("elseif")) code +
    countKw (sl ("else")) code + countKw (sl ("for")) code +
    countKw (sl ("while")) code + countKw (sl ("do")) code +
    countKw (sl ("switch")) code + countKw (sl ("case")) code +
    countKw (sl ("catch")) code + countTernary code +
    countSubNaive (sl ("&&")) code + countSubNaive (sl ("||")) code +
    countKw (sl ("and")) code + countKw (sl ("or")) code

/-- Maintainability index as the spec sentence describes it: the same
formula, but with `sloc` equal to the file's total line count minus its
comment line count (floored at 1), and 100 for a zero-line file. -/
def specMaintainabilityIndex (lines : List Chars) : ℚ :=
  let total := lines.length
  let comments := (lines.filter isCommentLine).length
  let complexity := (calculate_code_metrics lines).complexity
  if total = 0 then 100
  else
    let sloc : Int := imax 1 ((total : Int) - (comments : Int))
    let mi : ℚ := qmax 0 (171 - 5.2 * (complexity : ℚ) - 0.23 * (complexity : ℚ) -
      16.2 * (sloc : ℚ) / 100)
    qmin 100 (mi * 100 / 171)

/-- Maintainability index as the code actually computes it at file level:
`calculate_code_metrics` passes the comment-free line count as `loc`, and
`calculate_maintainability_index` subtracts the comment count again, so the
effective size term is total − 2·comments; the 100 short-circuit fires
whenever the comment-free line count is zero. -/
def amendedMaintainabilityIndex (lines : List Chars) : ℚ :=
  let total := lines.length
  let comments := (lines.filter isCommentLine).length
  let complexity := (calculate_code_metrics lines).complexity
  if total = comments then 100
  else
    let sloc : Int := imax 1 ((total : Int) - 2 * (comments : Int))
    let mi : ℚ := qmax 0 (171 - 5.2 * (complexity : ℚ) - 0.23 * (complexity : ℚ) -
      16.2 * (sloc : ℚ) / 100)
    qmin 100 (mi * 100 / 171)

/-! ## Shared concrete fixtures -/

/-- A well-formed commit record, used to instantiate list-level theorems. -/
def sampleCommit : CommitInfo :=
  { hash := sl ("deadbeef"), author_name := sl ("Ann"), author_email := [],
    date := sl ("2024-01-02T03:04:05+00:00"), message := sl ("add X"),
    full_message := sl ("feat: add X"), category := sl ("features"),
    scope := none, is_breaking := false, breaking_description := none,
    insertions := 3, deletions := 1, files_changed := 1 }

/-- Like `sampleCommit` but categorised into the debt set. -/
def sampleChoreCommit : CommitInfo :=
  { hash := sl ("deadbeef"), author_name := sl ("Ann"), author_email := [],
    date := sl ("2024-01-02T03:04:05+00:00"), message := sl ("tidy"),
    full_message := sl ("chore: tidy"), category := sl ("chore"),
    scope := none, is_breaking := false, breaking_description := none,
    insertions := 3, deletions := 1, files_changed := 1 }

/-! ## Claims about `TechDebtCalculator` -/

/-- Helper: on a non-empty commit list `calculate_metrics` returns the
record built from the percentage and score formulas. -/
theorem calculate_metrics_pos (commits : List CommitInfo) (cm : Option CodeMetricsIn)
    (h : commits ≠ []) :
    calculate_metrics commits cm =
      { total_commits := commits.length,
        debt_commits := (commits.filter (fun c => DEBT_CATEGORIES.contains c.category)).length,
        feature_commits := (commits.filter (fun c => FEATURE_CATEGORIES.contains c.category)).length,
        maintenance_commits := (commits.filter (fun c => MAINTENANCE_CATEGORIES.contains c.category)).length,
        debt_percentage := ((commits.filter (fun c => DEBT_CATEGORIES.contains c.category)).length : ℚ) / (commits.length : ℚ) * 100,
        feature_percentage := ((commits.filter (fun c => FEATURE_CATEGORIES.contains c.category)).length : ℚ) / (commits.length : ℚ) * 100,
        maintenance_percentage := ((commits.filter (fun c => MAINTENANCE_CATEGORIES.contains c.category)).length : ℚ) / (commits.length : ℚ) * 100,
        health_score :=
          if ((commits.filter (fun c => DEBT_CATEGORIES.contains c.category)).length : ℚ) / (commits.length : ℚ) * 100 > 0 then
            qmin 100 (((commits.filter (fun c => FEATURE_CATEGORIES.contains c.category)).length : ℚ) / (commits.length : ℚ) * 100 /
              (((commits.filter (fun c => DEBT_CATEGORIES.contains c.category)).length : ℚ) / (commits.length : ℚ) * 100) * 50 + 50)
          else 100,
        complexity_score := qmax 0 (100 - (cm.map (fun m => m.complexity)).getD 0),
        maintainability_index := (cm.map (fun m => m.maintainability_index)).getD 75 } := by
  have h0 : ¬ commits.length = 0 := by
    simpa using h
  simp only [calculate_metrics, h0, if_false]

/-- C6 — an empty commit list yields a `TechDebtMetrics` whose every field
is 0 (including health, complexity and maintainability scores), and the
scorer is a total function, so no exception is raised. -/
theorem claim_C6_zero_commits (cm : Option CodeMetricsIn) :
    calculate_metrics [] cm = ⟨0, 0, 0, 0, 0, 0, 0, 0, 0, 0⟩ := rfl

/-- C4 counterexample — with a non-empty commit list and *no* complexity
metrics supplied, the complexity score is 100, not 0 as the claim states
(`max(0, 100 - avg_complexity)` is computed unconditionally, with the
average defaulting to 0). -/
theorem claim_C4_counterexample :
    (calculate_metrics [sampleCommit] none).complexity_score = 100 ∧
      ¬(calculate_metrics [sampleCommit] none).complexity_score = 0 := by
  rw [calculate_metrics_pos [sampleCommit] none (by simp)]
  constructor
  · norm_num [qmax]
  · norm_num [qmax]

/-- C4 (amended) — for a non-empty commit list the complexity score is
`max(0, 100 − complexity)` with the complexity defaulting to 0 (hence a
score of 100) when no metrics are supplied; for the empty commit list the
score is 0 regardless of the metrics argument. -/
theorem claim_C4_complexity_score (commits : List CommitInfo) (cm : Option CodeMetricsIn) :
    (commits ≠ [] →
      (calculate_metrics commits cm).complexity_score =
        qmax 0 (100 - (cm.map (fun m => m.complexity)).getD 0)) ∧
      (calculate_metrics [] cm).complexity_score = 0 := by
  constructor
  · intro h
    rw [calculate_metrics_pos commits cm h]
  · rfl

/-- C4 witness — instantiating the amended claim at a one-commit list with
supplied metrics of average complexity 30 gives score 70. -/
theorem claim_C4_complexity_score_witness :
    ([sampleCommit] ≠ [] ∧
      (calculate_metrics [sampleCommit] (some ⟨30, 80⟩)).complexity_score =
        qmax 0 (100 - ((some (⟨30, 80⟩ : CodeMetricsIn)).map (fun m => m.complexity)).getD 0)) ∧
      (calculate_metrics [] (some ⟨30, 80⟩)).complexity_score = 0 :=
  ⟨⟨by simp, (claim_C4_complexity_score [sampleCommit] (some ⟨30, 80⟩)).1 (by simp)⟩,
    (claim_C4_complexity_score [sampleCommit] (some ⟨30, 80⟩)).2⟩

/-- C10 — for a non-empty commit list the health score lies in `[50, 100]`:
it is exactly 100 when no commit's category is in the debt set, and
`min 100 (feature% / debt% * 50 + 50)` (which is at least 50) otherwise;
a health score below 50 forces the commit list to be empty. -/
theorem claim_C10_health_score_bounds (commits : List CommitInfo) (cm : Option CodeMetricsIn) :
    (commits ≠ [] →
      50 ≤ (calculate_metrics commits cm).health_score ∧
      (calculate_metrics commits cm).health_score ≤ 100 ∧
      ((∀ c ∈ commits, c.category ∉ DEBT_CATEGORIES) →
        (calculate_metrics commits cm).health_score = 100) ∧
      ((∃ c ∈ commits, c.category ∈ DEBT_CATEGORIES) →
        (calculate_metrics commits cm).health_score =
          min 100 ((calculate_metrics commits cm).feature_percentage /
            (calculate_metrics commits cm).debt_percentage * 50 + 50))) ∧
    ((calculate_metrics commits cm).health_score < 50 → commits = []) := by
  by_cases hne : commits = []
  · subst hne
    refine ⟨fun h => absurd rfl h, fun _ => rfl⟩
  · rw [calculate_metrics_pos commits cm hne]
    have hT : (0 : ℚ) < (commits.length : ℚ) := by
      have : commits.length ≠ 0 := by simpa using hne
      exact_mod_cast Nat.pos_of_ne_zero this
    by_cases hD : (commits.filter (fun c => DEBT_CATEGORIES.contains c.category)).length = 0
    · have hdp :
          ¬(((commits.filter (fun c => DEBT_CATEGORIES.contains c.category)).length : ℚ) /
              (commits.length : ℚ) * 100 > 0) := by
        rw [hD]
        norm_num
      constructor
      · intro _
        refine ⟨?_, ?_, ?_, ?_⟩
        · simp only [if_neg hdp]
          norm_num
        · simp only [if_neg hdp]
          norm_num
        · intro _
          simp only [if_neg hdp]
        · intro hex
          exfalso
          obtain ⟨c, hc, hcat⟩ := hex
          have : c ∈ commits.filter (fun c => DEBT_CATEGORIES.contains c.category) := by
            simp only [List.mem_filter]
            exact ⟨hc, by simpa using hcat⟩
          have := List.length_pos.mpr (List.ne_nil_of_mem this)
          omega
      · intro hlt
        simp only [if_neg hdp] at hlt
        norm_num at hlt
    · have hDpos : (0 : ℚ) <
          ((commits.filter (fun c => DEBT_CATEGORIES.contains c.category)).length : ℚ) := by
        exact_mod_cast Nat.pos_of_ne_zero hD
      have hdp :
          (((commits.filter (fun c => DEBT_CATEGORIES.contains c.category)).length : ℚ) /
            (commits.length : ℚ) * 100 > 0) := by
        positivity
      have hfnn : (0 : ℚ) ≤
          ((commits.filter (fun c => FEATURE_CATEGORIES.contains c.category)).length : ℚ) /
            (commits.length : ℚ) * 100 := by
        positivity
      have hratio : (50 : ℚ) ≤
          ((commits.filter (fun c => FEATURE_CATEGORIES.contains c.category)).length : ℚ) /
              (commits.length : ℚ) * 100 /
              (((commits.filter (fun c => DEBT_CATEGORIES.contains c.category)).length : ℚ) /
                (commits.length : ℚ) * 100) * 50 + 50 := by
        have : (0 : ℚ) ≤
            ((commits.filter (fun c => FEATURE_CATEGORIES.contains c.category)).length : ℚ) /
              (commits.length : ℚ) * 100 /
              (((commits.filter (fun c => DEBT_CATEGORIES.contains c.category)).length : ℚ) /
                (commits.length : ℚ) * 100) := by
          exact div_nonneg hfnn (le_of_lt hdp)
        nlinarith
      have h50 : (50 : ℚ) ≤
          qmin 100
            (((commits.filter (fun c => FEATURE_CATEGORIES.contains c.category)).length : ℚ) /
              (commits.length : ℚ) * 100 /
              (((commits.filter (fun c => DEBT_CATEGORIES.contains c.category)).length : ℚ) /
                (commits.length : ℚ) * 100) * 50 + 50) := by
        rw [qmin_eq_min]
        exact le_min (by norm_num) hratio
      constructor
      · intro _
        refine ⟨?_, ?_, ?_, ?_⟩
        · simp only [if_pos hdp]
          exact h50
        · simp only [if_pos hdp]
          rw [qmin_eq_min]
          exact min_le_left _ _
        · intro hall
          exfalso
          obtain ⟨c, hcf⟩ := List.exists_mem_of_length_pos (Nat.pos_of_ne_zero hD)
          rw [List.mem_filter] at hcf
          exact hall c hcf.1 (by simpa using hcf.2)
        · intro _
          simp only [if_pos hdp]
          rw [qmin_eq_min]
      · intro hlt
        simp only [if_pos hdp] at hlt
        exact absurd hlt (not_lt.mpr h50)

/-- C10 witness — a singleton chore-commit list: the health score is
exactly `min 100 (0/100*50+50) = 50`, inside the stated bounds. -/
theorem claim_C10_health_score_bounds_witness :
    ([sampleChoreCommit] ≠ []) ∧
      (∃ c ∈ [sampleChoreCommit], c.category ∈ DEBT_CATEGORIES) ∧
      50 ≤ (calculate_metrics [sampleChoreCommit] none).health_score ∧
      (calculate_metrics [sampleChoreCommit] none).health_score ≤ 100 ∧
      (calculate_metrics [sampleChoreCommit] none).health_score =
        min 100 ((calculate_metrics [sampleChoreCommit] none).feature_percentage /
          (calculate_metrics [sampleChoreCommit] none).debt_percentage * 50 + 50) := by
  have hne : [sampleChoreCommit] ≠ [] := by simp
  have hex : ∃ c ∈ [sampleChoreCommit], c.category ∈ DEBT_CATEGORIES :=
    ⟨sampleChoreCommit, by simp, by decide⟩
  have h := (claim_C10_health_score_bounds [sampleChoreCommit] none).1 hne
  exact ⟨hne, hex, h.1, h.2.1, h.2.2.2 hex⟩

/-! ## Claims about `ComplexityAnalyzer` -/

/-- C5 counterexample — in `a && b` the `&&` is preceded by a space, so the
pattern `\b&&` finds no word boundary and the code counts nothing: the
computed complexity is 1, while the claim's reading ("every occurrence of
`&&` adds 1 regardless of what character precedes it") gives 2. -/
theorem claim_C5_counterexample :
    calculate_cyclomatic_complexity (sl ("a && b")) = 1 ∧
      specCyclomaticComplexity (sl ("a && b")) = 2 ∧
      ¬calculate_cyclomatic_complexity (sl ("a && b")) =
        specCyclomaticComplexity (sl ("a && b")) := by
  refine ⟨by decide, by decide, by decide⟩

/-- C5 (amended) — the cyclomatic complexity is 1 plus the counts of the
listed tokens, where the keywords are word-boundary matches, the ternary is
matched by `\b\?\s*.*\s*:`, and `&&`/`||` count only occurrences immediately
preceded by a word character. -/
theorem claim_C5_cyclomatic_formula (code : Chars) :
    calculate_cyclomatic_complexity code =
      1 + countKw (sl ("if")) code + countKw (sl ("elseif")) code +
        countKw (sl ("else")) code + countKw (sl ("for")) code +
        countKw (sl ("while")) code + countKw (sl ("do")) code +
        countKw (sl ("switch")) code + countKw (sl ("case")) code +
        countKw (sl ("catch")) code + countTernary code +
        countAmpAmp code + countPipePipe code +
        countKw (sl ("and")) code + countKw (sl ("or")) code := by
  simp only [calculate_cyclomatic_complexity, COMPLEXITY_PATTERNS, List.foldl]
  ring

/-- The ten-line counterexample file for C2: four comment lines and six
code lines (as read by `readlines()`, each line keeps its newline). -/
def lines10 : List Chars :=
  List.replicate 4 (sl ("# c\n")) ++ List.replicate 6 (sl ("x = 1\n"))

/-- C2 counterexample — on a ten-line file with four comment lines the code
computes the maintainability index with an effective size term of
`6 − 4 = 2` (the `loc` argument is already comment-free and the comments
are subtracted again), giving `16524.6/171`, while the claim's formula with
`sloc = total − comments = 6` gives `16459.8/171`. -/
theorem claim_C2_counterexample :
    ¬(calculate_code_metrics lines10).maintainability_index =
      specMaintainabilityIndex lines10 := by
  have hmi : (calculate_code_metrics lines10).maintainability_index =
      calculate_maintainability_index
        (lines10.length - (lines10.filter isCommentLine).length)
        (calculate_code_metrics lines10).complexity
        ((lines10.filter isCommentLine).length) := rfl
  have hc : (calculate_code_metrics lines10).complexity = 1 := by decide
  have hlen : lines10.length = 10 := by decide
  have hcom : (lines10.filter isCommentLine).length = 4 := by decide
  rw [hmi, hc, hlen, hcom]
  simp only [specMaintainabilityIndex]
  rw [hc, hlen, hcom]
  norm_num [calculate_maintainability_index, qmin, qmax, imax]

/-- C2 (amended) — for every file the maintainability index equals the
claimed formula with the size term corrected to
`sloc = max(1, total − 2·comments)` (the comment count is subtracted twice:
once by the caller and once inside the formula), and with the value pinned
to 100 exactly when all lines are comment lines (in particular for a
zero-line file). -/
theorem claim_C2_maintainability_index (lines : List Chars) :
    (calculate_code_metrics lines).maintainability_index =
      amendedMaintainabilityIndex lines := by
  have hle : (lines.filter isCommentLine).length ≤ lines.length :=
    List.length_filter_le _ _
  show calculate_maintainability_index
      (lines.length - (lines.filter isCommentLine).length)
      (calculate_code_metrics lines).complexity
      ((lines.filter isCommentLine).length) = amendedMaintainabilityIndex lines
  simp only [calculate_maintainability_index, amendedMaintainabilityIndex]
  by_cases h0 : lines.length - (lines.filter isCommentLine).length = 0
  · rw [if_pos h0, if_pos (by omega)]
  · rw [if_neg h0, if_neg (by omega)]
    have hcast : (((lines.length - (lines.filter isCommentLine).length : Nat) : Int) -
        ((lines.filter isCommentLine).length : Int)) =
        (lines.length : Int) - 2 * ((lines.filter isCommentLine).length : Int) := by
      omega
    rw [hcast]

/-! ## Claims about `GitIntelligence.get_history` -/

theorem splitChar_ne_nil (sep : Char) (xs : Chars) : splitChar sep xs ≠ [] := by
  cases xs with
  | nil => simp [splitChar]
  | cons x t =>
    simp only [splitChar]
    split
    · simp
    · cases splitChar sep t with
      | nil => simp
      | cons y ys => simp

theorem splitChar_append_cons (sep : Char) (a rest : Chars) (ha : sep ∉ a) :
    splitChar sep (a ++ sep :: rest) = a :: splitChar sep rest := by
  induction a with
  | nil => simp [splitChar]
  | cons x xs ih =>
    have hx : ¬x = sep := by
      intro h
      exact ha (h ▸ List.mem_cons_self x xs)
    have ihs := ih (fun h => ha (List.mem_cons_of_mem x h))
    simp only [List.cons_append, splitChar, hx, if_false, List.append_eq, ihs]

theorem contains_of_mem (xs : Chars) (c : Char) (h : c ∈ xs) :
    xs.contains c = true := by
  simp [List.contains, List.elem_eq_mem, h]

/-- The numstat line `ins<TAB>del<TAB>path` for one entry. -/
def renderStat (e : Chars × Chars × Chars) : Chars :=
  e.1 ++ '\t' :: (e.2.1 ++ '\t' :: e.2.2)

/-- A numstat field as the claim reads it: `-` contributes zero, a numeric
field contributes its value. -/
def statFieldVal (f : Chars) : Int := if f = ['-'] then 0 else (pyInt f).getD 0

/-- A well-formed numstat field: either the `-` placeholder or a string
`int()` accepts, and tab-free (so that it survives the tab split). -/
def statFieldOk (f : Chars) : Prop :=
  (f = ['-'] ∨ (pyInt f).isSome) ∧ ¬f.contains '\t' = true

instance (f : Chars) : Decidable (statFieldOk f) := by
  unfold statFieldOk
  infer_instance

theorem numstatLine_render (acc : Int × Int × Nat) (e : Chars × Chars × Chars)
    (ha : statFieldOk e.1) (hb : statFieldOk e.2.1) :
    numstatLine acc (renderStat e) =
      (acc.1 + statFieldVal e.1, acc.2.1 + statFieldVal e.2.1, acc.2.2 + 1) := by
  obtain ⟨a, b, p⟩ := e
  obtain ⟨ha1, ha2⟩ := ha
  obtain ⟨hb1, hb2⟩ := hb
  have hamem : '\t' ∉ a := fun h => ha2 (contains_of_mem a _ h)
  have hbmem : '\t' ∉ b := fun h => hb2 (contains_of_mem b _ h)
  have hsplit : splitChar '\t' (renderStat (a, b, p)) =
      a :: b :: splitChar '\t' p := by
    rw [renderStat, splitChar_append_cons _ _ _ hamem, splitChar_append_cons _ _ _ hbmem]
  have hcont : (renderStat (a, b, p)).contains '\t' = true := by
    refine contains_of_mem _ _ ?_
    rw [renderStat]
    simp
  have hlen : (splitChar '\t' (renderStat (a, b, p))).length ≥ 3 := by
    rw [hsplit]
    cases hsp : splitChar '\t' p with
    | nil => exact absurd hsp (splitChar_ne_nil '\t' p)
    | cons y ys => simp
  have hget0 : (splitChar '\t' (renderStat (a, b, p))).getD 0 [] = a := by
    rw [hsplit]
    rfl
  have hget1 : (splitChar '\t' (renderStat (a, b, p))).getD 1 [] = b := by
    rw [hsplit]
    rfl
  simp only [numstatLine, hcont, if_true, hlen, if_pos hlen, hget0, hget1]
  rcases ha1 with hdash | hsome
  · subst hdash
    rw [if_pos rfl]
    rcases hb1 with hbdash | hbsome
    · subst hbdash
      rw [if_pos rfl]
      simp [statFieldVal]
    · obtain ⟨v, hv⟩ := Option.isSome_iff_exists.mp hbsome
      have hbne : ¬(b = ['-']) := by
        intro h
        subst h
        simp [pyInt, trimL, lstripL, rstripL, isSpaceChar] at hv
      rw [if_neg hbne, hv]
      simp [statFieldVal, hbne, hv]
  · obtain ⟨v, hv⟩ := Option.isSome_iff_exists.mp hsome
    have hane : ¬(a = ['-']) := by
      intro h
      subst h
      simp [pyInt, trimL, lstripL, rstripL, isSpaceChar] at hv
    rw [if_neg hane, hv]
    rcases hb1 with hbdash | hbsome
    · subst hbdash
      simp [statFieldVal, hane, hv]
    · obtain ⟨w, hw⟩ := Option.isSome_iff_exists.mp hbsome
      have hbne : ¬(b = ['-']) := by
        intro h
        subst h
        simp [pyInt, trimL, lstripL, rstripL, isSpaceChar] at hw
      simp [statFieldVal, hane, hbne, hv, hw]

theorem aggregateNumstat_fold (l : List (Chars × Chars × Chars))
    (h : ∀ e ∈ l, statFieldOk e.1 ∧ statFieldOk e.2.1) :
    ∀ acc : Int × Int × Nat,
      List.foldl numstatLine acc (l.map renderStat) =
      (acc.1 + (l.map (fun e => statFieldVal e.1)).sum,
        acc.2.1 + (l.map (fun e => statFieldVal e.2.1)).sum,
        acc.2.2 + l.length) := by
  induction l with
  | nil => intro acc; simp
  | cons e es ih =>
    intro acc
    have he := h e (by simp)
    simp only [List.map_cons, List.foldl_cons]
    rw [numstatLine_render acc e he.1 he.2]
    rw [ih (fun x hx => h x (by simp [hx])) _]
    simp only [List.map_cons, List.sum_cons, List.length_cons]
    refine Prod.ext ?_ (Prod.ext ?_ ?_) <;> simp <;> ring

/-- C8 — per-commit insertions/deletions/files-changed are the sums over
the tab-separated numstat lines, with `-` contributing zero: for any list
of entries whose first two fields are numeric or `-`, the numstat loop
returns exactly the two field sums and the entry count. -/
theorem claim_C8_numstat_sums (entries : List (Chars × Chars × Chars))
    (h : ∀ e ∈ entries, statFieldOk e.1 ∧ statFieldOk e.2.1) :
    aggregateNumstat (entries.map renderStat) =
      ((entries.map (fun e => statFieldVal e.1)).sum,
        (entries.map (fun e => statFieldVal e.2.1)).sum,
        entries.length) := by
  rw [aggregateNumstat, aggregateNumstat_fold entries h (0, 0, 0)]
  simp

/-- The concrete stat lines of the claim: `(10,2,a.py)` and `(5,0,b.py)`. -/
def c8entries : List (Chars × Chars × Chars) :=
  [(sl ("10"), sl ("2"), sl ("a.py")), (sl ("5"), sl ("0"), sl ("b.py"))]

/-- A full commit chunk carrying exactly those two stat lines. -/
def c8chunk : Chars :=
  sl ("h==FIELD_BOUNDARY==Ann==FIELD_BOUNDARY==2024-01-02T03:04:05+00:00==FIELD_BOUNDARY==feat: a\n10\t2\ta.py\n5\t0\tb.py")

/-- C8 witness — on the claim's concrete stat lines the sums are
`insertions = 15`, `deletions = 2`, `files_changed = 2`, and the parsed
commit record carries exactly those numbers. -/
theorem claim_C8_numstat_sums_witness :
    (∀ e ∈ c8entries, statFieldOk e.1 ∧ statFieldOk e.2.1) ∧
      aggregateNumstat (c8entries.map renderStat) = (15, 2, 2) ∧
      (parseChunk c8chunk).map (fun r => (r.insertions, r.deletions, r.files_changed)) =
        some (15, 2, 2) := by
  have hok : ∀ e ∈ c8entries, statFieldOk e.1 ∧ statFieldOk e.2.1 := by decide
  refine ⟨hok, ?_, by decide⟩
  rw [claim_C8_numstat_sums c8entries hok]
  decide

/-- Whatever chunk a record was parsed from, its category, breaking flag
and scope are the classification of its own stored subject line. -/
theorem parseChunk_classifier (c : Chars) (r : CommitInfo) (h : parseChunk c = some r) :
    r.category = (classifySubject r.full_message).category ∧
      r.is_breaking = (classifySubject r.full_message).is_breaking ∧
      r.scope = (classifySubject r.full_message).scope := by
  simp only [parseChunk] at h
  split at h
  · exact absurd h (by simp)
  · split at h
    · exact absurd h (by simp)
    · split at h
      · exact absurd h (by simp)
      · split at h
        · have hx := Option.some.inj h
          subst hx
          exact ⟨rfl, rfl, rfl⟩
        · exact absurd h (by simp)

/-- C1 (amended) — every record produced by the history parser has the
category given by the fixed mapping table applied to its subject's type
(`other` for unmatched subjects), and its breaking flag is true *iff* the
`!` marker is present in the subject.  The `BREAKING CHANGE:` trailer is
never consulted: `BREAKING_RE` is defined but unused, and the log format
only requests the subject line `%s`, so the body is not even available. -/
theorem claim_C1_breaking_flag (raw : Chars) (r : CommitInfo) (hr : r ∈ parseGitLog raw) :
    (∀ m, matchConventional r.full_message = some m →
      r.category = catMapGet m.ctype ∧ r.is_breaking = m.bang) ∧
    (matchConventional r.full_message = none →
      r.category = sl ("other") ∧ r.is_breaking = false) := by
  obtain ⟨c, -, hpc⟩ := List.mem_filterMap.mp hr
  obtain ⟨hcat, hbrk, -⟩ := parseChunk_classifier c r hpc
  constructor
  · intro m hm
    rw [hcat, hbrk]
    simp [classifySubject, hm]
  · intro hm
    rw [hcat, hbrk]
    simp [classifySubject, hm]

/-- Raw log whose single commit has a grammar-matching subject with a
`BREAKING CHANGE:` trailer in its full message but no `!` marker. -/
def c1raw : Chars :=
  sl ("==COMMIT_BOUNDARY==\nabc123==FIELD_BOUNDARY==Ann==FIELD_BOUNDARY==2024-01-02T03:04:05+00:00==FIELD_BOUNDARY==feat: drop API BREAKING CHANGE: old removed")

/-- C1 counterexample — the commit's full message contains a
`BREAKING CHANGE:` trailer and its subject matches the grammar without
`!`, yet the parsed record has `is_breaking = false`; the claim requires
`true` for exactly this input. -/
theorem claim_C1_counterexample :
    ((parseGitLog c1raw).map (fun r => (r.category, r.is_breaking))) =
        [(sl ("features"), false)] ∧
      hasBreakingTrailerSpec ((parseGitLog c1raw).headD sampleCommit).full_message = true ∧
      (matchConventional ((parseGitLog c1raw).headD sampleCommit).full_message).isSome = true := by
  refine ⟨by decide, by decide, by decide⟩

/-- Raw log whose single commit subject carries scope and `!`. -/
def c1rawBang : Chars :=
  sl ("==COMMIT_BOUNDARY==\nabc==FIELD_BOUNDARY==Ann==FIELD_BOUNDARY==2024-01-02T03:04:05+00:00==FIELD_BOUNDARY==feat(api)!: drop X")

/-- C1 witness — instantiating the amended claim on a `feat(api)!: drop X`
commit: category `features`, breaking flag true. -/
theorem claim_C1_breaking_flag_witness :
    ((parseGitLog c1rawBang).headD sampleCommit) ∈ parseGitLog c1rawBang ∧
      ((parseGitLog c1rawBang).headD sampleCommit).category = sl ("features") ∧
      ((parseGitLog c1rawBang).headD sampleCommit).is_breaking = true := by
  have hmem : ((parseGitLog c1rawBang).headD sampleCommit) ∈ parseGitLog c1rawBang := by
    decide
  have hm : matchConventional ((parseGitLog c1rawBang).headD sampleCommit).full_message =
      some ⟨sl ("feat"), some (sl ("api")), true, sl ("drop X")⟩ := by decide
  have h := (claim_C1_breaking_flag c1rawBang _ hmem).1 _ hm
  refine ⟨hmem, ?_, h.2⟩
  rw [h.1]
  decide

/-- C7 — a chunk whose header line splits into fewer than four fields
yields no record, and the log parse is exactly the parse of the remaining
chunks (the parser is a total function, so nothing is raised). -/
theorem claim_C7_malformed_chunk (raw : Chars) (pre post : List Chars) (c : Chars)
    (hsplit : splitSub COMMIT_DELIMITER raw = pre ++ c :: post)
    (hmal : (splitSub FIELD_DELIMITER ((splitChar '\n' (trimL c)).headD [])).length < 4) :
    parseChunk c = none ∧
      parseGitLog raw = pre.filterMap parseChunk ++ post.filterMap parseChunk := by
  have hnone : parseChunk c = none := by
    simp only [parseChunk]
    by_cases h1 : trimL c = []
    · rw [if_pos h1]
    · rw [if_neg h1]
      by_cases h2 : (splitChar '\n' (trimL c)).length < 1 ∨
          trimL ((splitChar '\n' (trimL c)).headD []) = []
      · rw [if_pos h2]
      · rw [if_neg h2, if_pos hmal]
  refine ⟨hnone, ?_⟩
  rw [parseGitLog, hsplit, List.filterMap_append]
  simp [List.filterMap_cons, hnone]

def c7chunk1 : Chars :=
  sl ("\nh1==FIELD_BOUNDARY==Ann==FIELD_BOUNDARY==2024-01-02T03:04:05+00:00==FIELD_BOUNDARY==feat: a\n1\t2\tx.py\n")

def c7bad : Chars := sl ("\ngarbage line\n")

def c7chunk2 : Chars :=
  sl ("\nh2==FIELD_BOUNDARY==Bob==FIELD_BOUNDARY==2024-01-03T03:04:05+00:00==FIELD_BOUNDARY==fix: b")

def c7raw : Chars :=
  COMMIT_DELIMITER ++ c7chunk1 ++ COMMIT_DELIMITER ++ c7bad ++ COMMIT_DELIMITER ++ c7chunk2

/-- C7 witness — a log with a well-formed chunk, then a malformed chunk
(header splits into one field), then another well-formed chunk: the
malformed chunk is dropped and the other two still parse. -/
theorem claim_C7_malformed_chunk_witness :
    splitSub COMMIT_DELIMITER c7raw = [[], c7chunk1] ++ c7bad :: [c7chunk2] ∧
      (splitSub FIELD_DELIMITER ((splitChar '\n' (trimL c7bad)).headD [])).length < 4 ∧
      parseChunk c7bad = none ∧
      parseGitLog c7raw =
        ([[], c7chunk1] : List Chars).filterMap parseChunk ++
          ([c7chunk2] : List Chars).filterMap parseChunk := by
  have h1 : splitSub COMMIT_DELIMITER c7raw = [[], c7chunk1] ++ c7bad :: [c7chunk2] := by
    decide
  have h2 : (splitSub FIELD_DELIMITER ((splitChar '\n' (trimL c7bad)).headD [])).length < 4 := by
    decide
  have h := claim_C7_malformed_chunk c7raw [[], c7chunk1] [c7chunk2] c7bad h1 h2
  exact ⟨h1, h2, h.1, h.2⟩

/-! ## Claims about `CodebaseAnalyzer._parse_code_file` -/

theorem processLine_line_number (fp : Chars) (lines : List Chars) (i : Nat) (e : ClassInfo)
    (h : processLine fp lines i = some e) : e.line_number = i := by
  simp only [processLine] at h
  split at h
  · exact absurd h (by simp)
  · split at h
    · have hx := Option.some.inj h
      subst hx
      rfl
    · split at h
      · split at h
        · have hx := Option.some.inj h
          subst hx
          rfl
        · exact absurd h (by simp)
      · exact absurd h (by simp)

theorem mem_parsePythonFile (fp : Chars) (lines : List Chars) (e : ClassInfo) :
    e ∈ parsePythonFile fp lines ↔
      ∃ k, k < lines.length ∧ processLine fp lines (k + 1) = some e := by
  simp [parsePythonFile, List.mem_filterMap, List.mem_range]

/-- The function entity `processLine` emits for a `def` at line `i`. -/
def functionEntity (fp : Chars) (lines : List Chars) (i : Nat) (f : Chars) : ClassInfo :=
  { name := f, file_path := fp, line_number := i, class_type := sl ("function"),
    language := sl ("python"), is_test := false, docstring := getDocstring lines i,
    methods := [], bases := [], code_snippet := getCodeSnippet lines i, complexity := 0 }

/-- C3 (amended) — a line whose stripped text matches the `def` pattern
(and not the class pattern, and is not skipped as blank/comment) yields a
top-level function entity *iff* the `is_method` scan fails, i.e. iff none
of the following five lines is non-blank, non-`#`, positively indented and
not beginning with `def`.  In particular a `def` at column 0 whose body is
indented on the next line is reclassified and NOT emitted. -/
theorem claim_C3_function_emission (fp : Chars) (lines : List Chars) (i : Nat) (f : Chars)
    (hi1 : 1 ≤ i) (hi2 : i ≤ lines.length)
    (hskip : ¬(trimL (lines.getD (i - 1) []) = [] ∨
      startsWithL (sl ("#")) (trimL (lines.getD (i - 1) [])) = true ∨
      startsWithL (sl ("//")) (trimL (lines.getD (i - 1) [])) = true ∨
      startsWithL (sl ("*")) (trimL (lines.getD (i - 1) [])) = true))
    (hclass : matchPyClass (trimL (lines.getD (i - 1) [])) = none)
    (hdef : matchPyDef (trimL (lines.getD (i - 1) [])) = some f) :
    (∃ e ∈ parsePythonFile fp lines,
        e.class_type = sl ("function") ∧ e.name = f ∧ e.line_number = i) ↔
      isMethodCheck lines i = false := by
  constructor
  · rintro ⟨e, he, hfun, -, hline⟩
    obtain ⟨k, hk, hpk⟩ := (mem_parsePythonFile fp lines e).mp he
    have hkn := processLine_line_number fp lines (k + 1) e hpk
    rw [hline] at hkn
    rw [← hkn] at hpk
    simp only [processLine, hskip, if_false, hclass, hdef] at hpk
    by_cases hm : isMethodCheck lines i = true
    · rw [if_neg (by simp [hm])] at hpk
      exact absurd hpk (by simp)
    · simpa using hm
  · intro hm
    refine ⟨functionEntity fp lines i f, ?_, rfl, rfl, rfl⟩
    rw [mem_parsePythonFile]
    refine ⟨i - 1, by omega, ?_⟩
    have hi : i - 1 + 1 = i := by omega
    rw [hi]
    simp only [processLine, hskip, if_false, hclass, hdef]
    rw [if_pos ⟨hi2, by simp [hm]⟩]
    rfl

/-- C3 witness — a one-line file `def f():` (nothing follows the `def`, so
the `is_method` scan fails) produces the function entity. -/
theorem claim_C3_function_emission_witness :
    isMethodCheck [sl ("def f():")] 1 = false ∧
      ∃ e ∈ parsePythonFile (sl ("a.py")) [sl ("def f():")],
        e.class_type = sl ("function") ∧ e.name = sl ("f") ∧ e.line_number = 1 := by
  have hm : isMethodCheck [sl ("def f():")] 1 = false := by decide
  refine ⟨hm, ?_⟩
  exact (claim_C3_function_emission (sl ("a.py")) [sl ("def f():")] 1 (sl ("f"))
    (by decide) (by decide) (by decide) (by decide) (by decide)).mpr hm

/-- C3 counterexample — `def f():` at column 0 followed by its indented
body `    return 1`: the claim says the function entity is still emitted
(the indentation is relative to base 0), but the scan checks the absolute
indentation, reclassifies the def as a method and emits nothing at all. -/
theorem claim_C3_counterexample :
    parsePythonFile (sl ("a.py")) [sl ("def f():"), sl ("    return 1")] = [] ∧
      matchPyDef (trimL (([sl ("def f():"), sl ("    return 1")] : List Chars).getD 0 [])) =
        some (sl ("f")) ∧
      indentOf (([sl ("def f():"), sl ("    return 1")] : List Chars).getD 0 []) = 0 := by
  refine ⟨by decide, by decide, by decide⟩

/-- The two-line file of the C9 counterexample: a class with a two-space
indented method. -/
def c9lines : List Chars := [sl ("class A:"), sl ("  def m(self):")]

/-- C9 counterexample — for `class A:` followed by the method `def m`
indented by two spaces, the extractor emits a class entity whose methods
list is empty (the method lister only matches exactly four leading spaces)
*and* also emits `m` as a top-level function entity (nothing follows it,
so the `is_method` scan fails) — contradicting both halves of the claim. -/
theorem claim_C9_counterexample :
    (parsePythonFile (sl ("a.py")) c9lines).map
        (fun e => (e.class_type, e.name, e.methods)) =
      [(sl ("class"), sl ("A"), []), (sl ("function"), sl ("m"), [])] := by
  decide

/-- C9 (amended) — for a three-line file `class C:` / four-space-indented
`def m(...)` / deeper-indented body line, the extractor emits exactly one
entity: the class, with `m` in its methods list; the method is not emitted
as a separate function entity.  The hypotheses state exactly that shape:
line 1 matches the class pattern at indentation 0, line 2 matches both the
four-space method pattern and (once stripped) the `def` pattern, and line 3
is a non-blank, non-comment, positively indented line not starting with
`def` and matching no declaration pattern. -/
theorem claim_C9_class_with_method (fp l0 l1 l2 cname m : Chars)
    (h0a : matchPyClass (trimL l0) = some (cname, none))
    (h0b : ¬(trimL l0 = [] ∨ startsWithL (sl ("#")) (trimL l0) = true ∨
      startsWithL (sl ("//")) (trimL l0) = true ∨ startsWithL (sl ("*")) (trimL l0) = true))
    (h0c : indentOf l0 = 0)
    (h1a : matchIndentDef l1 = some m)
    (h1b : matchPyClass (trimL l1) = none)
    (h1c : matchPyDef (trimL l1) = some m)
    (h1e : 0 < indentOf l1)
    (h2a : ¬trimL l2 = [])
    (h2b : ¬startsWithL (sl ("#")) (trimL l2) = true)
    (h2c : 0 < indentOf l2)
    (h2d : ¬startsWithL (sl ("def")) (trimL l2) = true)
    (h2e : matchPyClass (trimL l2) = none)
    (h2f : matchPyDef (trimL l2) = none)
    (h2g : matchIndentDef l2 = none) :
    (parsePythonFile fp [l0, l1, l2]).map
        (fun e => (e.class_type, e.name, e.methods, e.line_number)) =
      [(sl ("class"), cname, [m], 1)] := by
  have hst1 : trimL l1 ≠ [] := by
    intro h
    rw [h] at h1c
    simp [matchPyDef] at h1c
  have hmeth : getPythonMethods [l0, l1, l2] 1 = [m] := by
    have hbase : indentOf (([l0, l1, l2] : List Chars).getD 0 []) = 0 := h0c
    simp only [getPythonMethods, List.length_cons, List.length_nil]
    rw [if_neg (by omega)]
    rw [hbase]
    show gpmScan 0 [l1, l2] = [m]
    rw [gpmScan, if_neg hst1, if_neg (by omega), h1a]
    rw [gpmScan, if_neg h2a, if_neg (by omega), h2g]
    rfl
  have hmc : isMethodCheck [l0, l1, l2] 2 = true := by
    rw [isMethodCheck, List.any_eq_true]
    refine ⟨0, by decide, ?_⟩
    simp only [Nat.add_zero]
    have hget : ([l0, l1, l2] : List Chars).getD 2 [] = l2 := rfl
    simp [hget, h2a, h2b, h2c, h2d]
  have hp1 : processLine fp [l0, l1, l2] 1 = some
      { name := cname, file_path := fp, line_number := 1,
        class_type := sl ("class"), language := sl ("python"), is_test := false,
        docstring := getDocstring [l0, l1, l2] 1,
        methods := getPythonMethods [l0, l1, l2] 1, bases := [],
        code_snippet := getCodeSnippet [l0, l1, l2] 1, complexity := 0 } := by
    have hget : ([l0, l1, l2] : List Chars).getD 0 [] = l0 := rfl
    simp only [processLine, hget, h0b, if_false, h0a]
  have hp2 : processLine fp [l0, l1, l2] 2 = none := by
    have hget : ([l0, l1, l2] : List Chars).getD 1 [] = l1 := rfl
    simp only [processLine, hget]
    split
    · rfl
    · simp only [h1b, h1c]
      rw [if_neg (by simp [hmc])]
  have hp3 : processLine fp [l0, l1, l2] 3 = none := by
    have hget : ([l0, l1, l2] : List Chars).getD 2 [] = l2 := rfl
    simp only [processLine, hget]
    split
    · rfl
    · simp only [h2e, h2f]
  have hrange : List.range ([l0, l1, l2] : List Chars).length = [0, 1, 2] := rfl
  rw [parsePythonFile, hrange]
  simp only [List.filterMap_cons, Nat.zero_add, Nat.reduceAdd, hp1, hp2, hp3,
    List.filterMap_nil, List.map_cons, List.map_nil, hmeth]

/-- C9 witness — the concrete three-line file
`class A:` / `    def m(self):` / `        pass`. -/
theorem claim_C9_class_with_method_witness :
    (parsePythonFile (sl ("a.py"))
        [sl ("class A:"), sl ("    def m(self):"), sl ("        pass")]).map
        (fun e => (e.class_type, e.name, e.methods, e.line_number)) =
      [(sl ("class"), sl ("A"), [sl ("m")], 1)] :=
  claim_C9_class_with_method (sl ("a.py")) (sl ("class A:")) (sl ("    def m(self):"))
    (sl ("        pass")) (sl ("A")) (sl ("m"))
    (by decide) (by decide) (by decide) (by decide) (by decide) (by decide) (by decide)
    (by decide) (by decide) (by decide) (by decide) (by decide) (by decide) (by decide)
